import Mathlib

set_option maxHeartbeats 1000000

/-!
Shallow embedding of the tugger-debian Debian repository tooling:
`binary_package_control.rs` and `repository/http.rs`, together with the
supporting data model described by the specification for the parts of the
crate that those files use (control paragraphs, dependency lists, package
versions, release manifests and the repository-reader error taxonomy).
-/

/-- A single field of a control paragraph: a name and a string value. -/
structure ControlField where
  name : String
  value : String
  deriving DecidableEq, Repr

/-- Modelled from the spec: a `ControlParagraph` (control.rs is not among the
sources) is an ordered sequence of fields; names are matched
case-insensitively and the first occurrence wins for scalar lookups. -/
structure ControlParagraph where
  fields : List ControlField
  deriving DecidableEq, Repr

/-- ASCII lower-casing of one character, used for case-insensitive names. -/
def lowerChar (c : Char) : Char :=
  if 'A' ≤ c ∧ c ≤ 'Z' then Char.ofNat (c.toNat + 32) else c

/-- Case-insensitive field-name match used by paragraph lookups. -/
def fieldNameMatches (name : String) (fl : ControlField) : Bool :=
  fl.name.toList.map lowerChar == name.toList.map lowerChar

/-- Modelled from the spec: first occurrence of a named field. -/
def ControlParagraph.first_field (p : ControlParagraph) (name : String) :
    Option ControlField :=
  p.fields.find? (fieldNameMatches name)

/-- Modelled from the spec: string value of the first occurrence of a field. -/
def ControlParagraph.first_field_str (p : ControlParagraph) (name : String) :
    Option String :=
  (p.first_field name).map ControlField.value

/-- Modelled from the spec: a malformed-dependency condition raised by the
dependency grammar of dependency.rs, which is not among the sources. -/
inductive DependencyError where
  | malformed (msg : String)
  deriving DecidableEq, Repr

/-- Modelled from the spec: the five version relation operators. -/
inductive VersionRelation where
  | strictlyEarlier
  | earlierOrEqual
  | equal
  | laterOrEqual
  | strictlyLater
  deriving DecidableEq, Repr

/-- Modelled from the spec: one alternative of a dependency expression. -/
structure SingleDependency where
  package : String
  architecture : Option String
  constraintRel : Option (VersionRelation × String)
  deriving DecidableEq, Repr

/-- Modelled from the spec: an ordered list of alternatives. -/
abbrev DependencyExpression := List SingleDependency

/-- Modelled from the spec: an ordered sequence of dependency expressions. -/
structure DependencyList where
  expressions : List DependencyExpression
  deriving DecidableEq, Repr

/-- Modelled from the spec: a parsed package version (package_version.rs is not
among the sources): epoch, upstream version, optional debian revision. -/
structure PackageVersion where
  epoch : Nat
  upstream_version : String
  debian_revision : Option String
  deriving DecidableEq, Repr

/-- Modelled from the spec: a malformed-version-string condition. -/
inductive VersionError where
  | malformed (msg : String)
  deriving DecidableEq, Repr

/-- Model of the error kinds of Rust integer parsing relevant to `usize`. -/
inductive ParseIntError where
  | Empty
  | InvalidDigit
  | PosOverflow
  deriving DecidableEq, Repr

/-- Largest value of a 64-bit machine-word unsigned integer. -/
def USIZE_MAX : Nat := 2 ^ 64 - 1

/-- Model of the digit-accumulation loop of Rust unsigned integer parsing:
each character must be an ASCII decimal digit and the accumulated value must
stay within the machine word, otherwise parsing fails. -/
def parse_digits : List Char → Nat → Except ParseIntError Nat
  | [], acc => .ok acc
  | c :: rest, acc =>
    if c.isDigit then
      let acc' := acc * 10 + (c.toNat - '0'.toNat)
      if acc' ≤ USIZE_MAX then parse_digits rest acc'
      else .error .PosOverflow
    else .error .InvalidDigit

/-- Model of Rust `usize::from_str` on a 64-bit target: an optional leading
plus sign followed by one or more decimal digits, rejecting the empty string,
a lone sign, any non-digit, and overflow. -/
def parse_usize (l : List Char) : Except ParseIntError Nat :=
  match l with
  | [] => .error .Empty
  | '+' :: [] => .error .InvalidDigit
  | '+' :: rest => parse_digits rest 0
  | _ => parse_digits l 0

/-- Error enum of binary-package control-file accessors. -/
inductive BinaryPackageControlError where
  | RequiredFieldMissing (field : String)
  | IntegerParse (e : ParseIntError)
  | Depends (e : DependencyError)
  | Version (e : VersionError)
  deriving DecidableEq, Repr

/-- Result alias of binary_package_control.rs. -/
abbrev BPCResult (T : Type) := Except BinaryPackageControlError T

/-- Error conversion applied by the question-mark operator on an integer
parse inside an accessor. -/
def liftIntResult (r : Except ParseIntError Nat) : BPCResult Nat :=
  match r with
  | .ok n => .ok n
  | .error e => .error (.IntegerParse e)

/-- Error conversion applied by the question-mark operator on a dependency
parse inside an accessor. -/
def liftDependencyResult (r : Except DependencyError DependencyList) :
    BPCResult DependencyList :=
  match r with
  | .ok d => .ok d
  | .error e => .error (.Depends e)

/-- Error conversion applied by the question-mark operator on a version
parse inside an accessor. -/
def liftVersionResult (r : Except VersionError PackageVersion) :
    BPCResult PackageVersion :=
  match r with
  | .ok v => .ok v
  | .error e => .error (.Version e)

/-- A Debian binary package control file: a wrapper around one paragraph. -/
structure BinaryPackageControlFile where
  paragraph : ControlParagraph
  deriving DecidableEq, Repr

namespace BinaryPackageControlFile

/-- Obtain the first occurrence of the given field. -/
def first_field (f : BinaryPackageControlFile) (name : String) :
    Option ControlField :=
  f.paragraph.first_field name

/-- Obtain the string value of the first occurrence of the given field. -/
def first_field_str (f : BinaryPackageControlFile) (name : String) :
    Option String :=
  f.paragraph.first_field_str name

/-- Obtain the first value of a field, evaluated as a boolean: the field is
true iff its string value is `yes`. -/
def first_field_bool (f : BinaryPackageControlFile) (name : String) :
    Option Bool :=
  (f.paragraph.first_field_str name).map (fun v => v == "yes")

/-- Look up a required field, failing when it is absent. -/
def required_field (f : BinaryPackageControlFile) (field : String) :
    BPCResult String :=
  match f.paragraph.first_field_str field with
  | some v => .ok v
  | none => .error (.RequiredFieldMissing field)

/-- The `Package` field. -/
def package (f : BinaryPackageControlFile) : BPCResult String :=
  f.required_field "Package"

/-- The `Version` field as its original string. -/
def version_str (f : BinaryPackageControlFile) : BPCResult String :=
  f.required_field "Version"

/-- The `Version` field parsed into a `PackageVersion`; the parse function of
package_version.rs is not among the sources, so it is taken as an argument. -/
def version (parse : String → Except VersionError PackageVersion)
    (f : BinaryPackageControlFile) : BPCResult PackageVersion :=
  match f.version_str with
  | .error e => .error e
  | .ok s => liftVersionResult (parse s)

/-- The `Architecture` field. -/
def architecture (f : BinaryPackageControlFile) : BPCResult String :=
  f.required_field "Architecture"

/-- The `Maintainer` field. -/
def maintainer (f : BinaryPackageControlFile) : BPCResult String :=
  f.required_field "Maintainer"

/-- The `Description` field. -/
def description (f : BinaryPackageControlFile) : BPCResult String :=
  f.required_field "Description"

/-- The `Installed-Size` field parsed as an unsigned machine-word integer. -/
def installed_size (f : BinaryPackageControlFile) :
    Option (BPCResult Nat) :=
  (f.paragraph.first_field_str "Installed-Size").map fun x =>
    liftIntResult (parse_usize x.toList)

/-- The `Depends` field parsed on demand; the dependency parser of
dependency.rs is not among the sources, so it is taken as an argument. -/
def depends (parse : String → Except DependencyError DependencyList)
    (f : BinaryPackageControlFile) : Option (BPCResult DependencyList) :=
  (f.paragraph.first_field_str "Depends").map fun x =>
    liftDependencyResult (parse x)

/-- The `Recommends` field parsed on demand. -/
def recommends (parse : String → Except DependencyError DependencyList)
    (f : BinaryPackageControlFile) : Option (BPCResult DependencyList) :=
  (f.paragraph.first_field_str "Recommends").map fun x =>
    liftDependencyResult (parse x)

/-- The `Suggests` field parsed on demand. -/
def suggests (parse : String → Except DependencyError DependencyList)
    (f : BinaryPackageControlFile) : Option (BPCResult DependencyList) :=
  (f.paragraph.first_field_str "Suggests").map fun x =>
    liftDependencyResult (parse x)

/-- The `Enhances` field parsed on demand. -/
def enhances (parse : String → Except DependencyError DependencyList)
    (f : BinaryPackageControlFile) : Option (BPCResult DependencyList) :=
  (f.paragraph.first_field_str "Enhances").map fun x =>
    liftDependencyResult (parse x)

/-- The `Pre-Depends` field parsed on demand. -/
def pre_depends (parse : String → Except DependencyError DependencyList)
    (f : BinaryPackageControlFile) : Option (BPCResult DependencyList) :=
  (f.paragraph.first_field_str "Pre-Depends").map fun x =>
    liftDependencyResult (parse x)

end BinaryPackageControlFile

/-- The field named `name` does not occur in the paragraph of `f`. -/
def fieldAbsent (f : BinaryPackageControlFile) (name : String) : Prop :=
  ∀ fl ∈ f.paragraph.fields, ¬ fieldNameMatches name fl

/-- The value of the first occurrence of the field named `name`, phrased
directly over the raw field list of the paragraph. -/
def firstValue (f : BinaryPackageControlFile) (name : String) :
    Option String :=
  (f.paragraph.fields.find? (fieldNameMatches name)).map ControlField.value

lemma firstValue_eq_none_iff (f : BinaryPackageControlFile) (name : String) :
    firstValue f name = none ↔ fieldAbsent f name := by
  unfold firstValue fieldAbsent
  rw [Option.map_eq_none', List.find?_eq_none]

lemma liftIntResult_eq_ok (r : Except ParseIntError Nat) (n : Nat) :
    liftIntResult r = .ok n ↔ r = .ok n := by
  cases r <;> simp [liftIntResult]

lemma liftIntResult_eq_error (r : Except ParseIntError Nat)
    (e : ParseIntError) :
    liftIntResult r = .error (.IntegerParse e) ↔ r = .error e := by
  cases r <;> simp [liftIntResult]

lemma liftDependencyResult_eq_ok (r : Except DependencyError DependencyList)
    (d : DependencyList) :
    liftDependencyResult r = .ok d ↔ r = .ok d := by
  cases r <;> simp [liftDependencyResult]

lemma liftDependencyResult_eq_error
    (r : Except DependencyError DependencyList) (e : DependencyError) :
    liftDependencyResult r = .error (.Depends e) ↔ r = .error e := by
  cases r <;> simp [liftDependencyResult]

lemma liftVersionResult_eq_ok (r : Except VersionError PackageVersion)
    (pv : PackageVersion) :
    liftVersionResult r = .ok pv ↔ r = .ok pv := by
  cases r <;> simp [liftVersionResult]

lemma liftVersionResult_eq_error (r : Except VersionError PackageVersion)
    (e : VersionError) :
    liftVersionResult r = .error (.Version e) ↔ r = .error e := by
  cases r <;> simp [liftVersionResult]

lemma liftVersionResult_ne_missing (r : Except VersionError PackageVersion)
    (s : String) :
    liftVersionResult r ≠ .error (.RequiredFieldMissing s) := by
  cases r <;> simp [liftVersionResult]

lemma required_field_spec (f : BinaryPackageControlFile) (name : String) :
    (∀ v, f.required_field name = .ok v ↔ firstValue f name = some v) ∧
    (f.required_field name = .error (.RequiredFieldMissing name) ↔
      fieldAbsent f name) := by
  rw [← firstValue_eq_none_iff]
  have hdef : f.required_field name =
      match firstValue f name with
      | some v => Except.ok v
      | none => Except.error (.RequiredFieldMissing name) := rfl
  constructor
  · intro v
    rw [hdef]
    cases h : firstValue f name <;> simp
  · rw [hdef]
    cases h : firstValue f name <;> simp

/-- C1: each required-field accessor (`package`, `version_str`,
`architecture`, `maintainer`, `description`) returns ok with the string value
of the field's first occurrence when the field is present, and fails with a
required-field-missing error naming that field exactly when the field is
absent from the paragraph. -/
theorem claim_C1_required_field_accessors (f : BinaryPackageControlFile) :
    ((∀ v, f.package = .ok v ↔ firstValue f "Package" = some v) ∧
      (f.package = .error (.RequiredFieldMissing "Package") ↔
        fieldAbsent f "Package")) ∧
    ((∀ v, f.version_str = .ok v ↔ firstValue f "Version" = some v) ∧
      (f.version_str = .error (.RequiredFieldMissing "Version") ↔
        fieldAbsent f "Version")) ∧
    ((∀ v, f.architecture = .ok v ↔ firstValue f "Architecture" = some v) ∧
      (f.architecture = .error (.RequiredFieldMissing "Architecture") ↔
        fieldAbsent f "Architecture")) ∧
    ((∀ v, f.maintainer = .ok v ↔ firstValue f "Maintainer" = some v) ∧
      (f.maintainer = .error (.RequiredFieldMissing "Maintainer") ↔
        fieldAbsent f "Maintainer")) ∧
    ((∀ v, f.description = .ok v ↔ firstValue f "Description" = some v) ∧
      (f.description = .error (.RequiredFieldMissing "Description") ↔
        fieldAbsent f "Description")) :=
  ⟨required_field_spec f "Package", required_field_spec f "Version",
    required_field_spec f "Architecture", required_field_spec f "Maintainer",
    required_field_spec f "Description"⟩

/-- C8: `first_field_bool` returns none exactly when the field is absent,
some true exactly when the field's first value is the exact string `yes`
(case-sensitively, so the values `Yes` and `true` both yield some false),
and some false for any other present value. -/
theorem claim_C8_first_field_bool (f : BinaryPackageControlFile)
    (name : String) :
    (f.first_field_bool name = none ↔ fieldAbsent f name) ∧
    (f.first_field_bool name = some true ↔ firstValue f name = some "yes") ∧
    (f.first_field_bool name = some false ↔
      ∃ v, firstValue f name = some v ∧ v ≠ "yes") ∧
    (BinaryPackageControlFile.mk ⟨[⟨"Essential", "Yes"⟩]⟩).first_field_bool
      "Essential" = some false ∧
    (BinaryPackageControlFile.mk ⟨[⟨"Essential", "true"⟩]⟩).first_field_bool
      "Essential" = some false := by
  have hdef : f.first_field_bool name =
      (firstValue f name).map (fun v => v == "yes") := rfl
  refine ⟨?_, ?_, ?_, by rfl, by rfl⟩
  · rw [hdef, ← firstValue_eq_none_iff]
    cases h : firstValue f name <;> simp
  · rw [hdef]
    cases h : firstValue f name <;> simp
  · rw [hdef]
    cases h : firstValue f name <;> simp

/-- C9: `installed_size` returns none exactly when the Installed-Size field is
absent, some ok n exactly when its first value parses as an unsigned
machine-word integer n, and some error with an integer-parse error exactly
when the field is present but its value is not such an integer; the final
conjunct exhibits a concrete paragraph on which the optional field fails
rather than being absent. -/
theorem claim_C9_installed_size (f : BinaryPackageControlFile) :
    (f.installed_size = none ↔ fieldAbsent f "Installed-Size") ∧
    (∀ n, f.installed_size = some (.ok n) ↔
      ∃ v, firstValue f "Installed-Size" = some v ∧
        parse_usize v.toList = .ok n) ∧
    (∀ e, f.installed_size = some (.error (.IntegerParse e)) ↔
      ∃ v, firstValue f "Installed-Size" = some v ∧
        parse_usize v.toList = .error e) ∧
    (∀ r, f.installed_size = some r →
      (∃ n, r = .ok n) ∨ ∃ e, r = .error (.IntegerParse e)) ∧
    (BinaryPackageControlFile.mk ⟨[⟨"Installed-Size", "12a"⟩]⟩).installed_size
      = some (.error (.IntegerParse .InvalidDigit)) := by
  have hdef : f.installed_size = (firstValue f "Installed-Size").map fun x =>
      liftIntResult (parse_usize x.toList) := rfl
  refine ⟨?_, ?_, ?_, ?_, by rfl⟩
  · rw [hdef, ← firstValue_eq_none_iff]
    cases h : firstValue f "Installed-Size" <;> simp
  · intro n
    rw [hdef]
    cases h : firstValue f "Installed-Size" <;>
      simp [liftIntResult_eq_ok]
  · intro e
    rw [hdef]
    cases h : firstValue f "Installed-Size" <;>
      simp [liftIntResult_eq_error]
  · intro r hr
    rw [hdef] at hr
    cases h : firstValue f "Installed-Size" with
    | none => rw [h] at hr; simp at hr
    | some v =>
      rw [h] at hr
      simp only [Option.map_some', Option.some.injEq] at hr
      cases hp : parse_usize v.toList with
      | ok n =>
        rw [hp] at hr
        exact Or.inl ⟨n, hr.symm⟩
      | error e =>
        rw [hp] at hr
        exact Or.inr ⟨e, hr.symm⟩

/-- Characterization of one on-demand relationship-field accessor: none
exactly when the field is absent, and otherwise some of the lifted result of
parsing the field's first value, which is an error exactly when the parse of
that value fails. -/
def relationshipAccessorSpec
    (parse : String → Except DependencyError DependencyList)
    (f : BinaryPackageControlFile) (acc : Option (BPCResult DependencyList))
    (name : String) : Prop :=
  (acc = none ↔ fieldAbsent f name) ∧
  (∀ r, acc = some r ↔
    ∃ v, firstValue f name = some v ∧ r = liftDependencyResult (parse v)) ∧
  (∀ d, acc = some (.ok d) ↔
    ∃ v, firstValue f name = some v ∧ parse v = .ok d) ∧
  (∀ e, acc = some (.error (.Depends e)) ↔
    ∃ v, firstValue f name = some v ∧ parse v = .error e)

lemma relationship_accessor_spec_of_map
    (parse : String → Except DependencyError DependencyList)
    (f : BinaryPackageControlFile) (name : String) :
    relationshipAccessorSpec parse f
      ((firstValue f name).map fun x => liftDependencyResult (parse x))
      name := by
  refine ⟨?_, ?_, ?_, ?_⟩
  · rw [← firstValue_eq_none_iff]
    cases h : firstValue f name <;> simp
  · intro r
    cases h : firstValue f name <;> simp [eq_comm]
  · intro d
    cases h : firstValue f name <;> simp [liftDependencyResult_eq_ok]
  · intro e
    cases h : firstValue f name <;> simp [liftDependencyResult_eq_error]

/-- C2: each relationship-field accessor (`depends`, `pre_depends`,
`recommends`, `suggests`, `enhances`) returns none when the corresponding
field is absent — absence is never an error — and when the field is present
it returns some of the result of parsing the field's first value, which is
an error exactly when that value is malformed for the parse function. -/
theorem claim_C2_relationship_field_accessors
    (parse : String → Except DependencyError DependencyList)
    (f : BinaryPackageControlFile) :
    relationshipAccessorSpec parse f (f.depends parse) "Depends" ∧
    relationshipAccessorSpec parse f (f.pre_depends parse) "Pre-Depends" ∧
    relationshipAccessorSpec parse f (f.recommends parse) "Recommends" ∧
    relationshipAccessorSpec parse f (f.suggests parse) "Suggests" ∧
    relationshipAccessorSpec parse f (f.enhances parse) "Enhances" :=
  ⟨relationship_accessor_spec_of_map parse f "Depends",
    relationship_accessor_spec_of_map parse f "Pre-Depends",
    relationship_accessor_spec_of_map parse f "Recommends",
    relationship_accessor_spec_of_map parse f "Suggests",
    relationship_accessor_spec_of_map parse f "Enhances"⟩

/-- C3: `version` fails with a required-field-missing semantic error exactly
when the Version field is absent, fails with a version syntax error exactly
when the Version field is present but the version parse rejects its first
value, and otherwise returns the parsed package version of that value. -/
theorem claim_C3_version (parse : String → Except VersionError PackageVersion)
    (f : BinaryPackageControlFile) :
    (f.version parse = .error (.RequiredFieldMissing "Version") ↔
      fieldAbsent f "Version") ∧
    (∀ e, f.version parse = .error (.Version e) ↔
      ∃ v, firstValue f "Version" = some v ∧ parse v = .error e) ∧
    (∀ pv, f.version parse = .ok pv ↔
      ∃ v, firstValue f "Version" = some v ∧ parse v = .ok pv) := by
  have hdef : f.version parse =
      match firstValue f "Version" with
      | some s => liftVersionResult (parse s)
      | none => Except.error (.RequiredFieldMissing "Version") := by
    show (match f.version_str with
      | .error e => Except.error e
      | .ok s => liftVersionResult (parse s)) = _
    have hvs : f.version_str =
        match firstValue f "Version" with
        | some v => Except.ok v
        | none => Except.error (.RequiredFieldMissing "Version") := rfl
    rw [hvs]
    cases firstValue f "Version" <;> rfl
  refine ⟨?_, ?_, ?_⟩
  · rw [hdef, ← firstValue_eq_none_iff]
    cases h : firstValue f "Version" with
    | none => simp
    | some v => simp [liftVersionResult_ne_missing]
  · intro e
    rw [hdef]
    cases h : firstValue f "Version" <;> simp [liftVersionResult_eq_error]
  · intro pv
    rw [hdef]
    cases h : firstValue f "Version" <;> simp [liftVersionResult_eq_ok]

/-- Model of the HTTP client handle; it carries no state observable by the
embedded operations. -/
structure Client where
  mk ::
  deriving DecidableEq, Repr

/-- Default HTTP client. -/
def Client.default : Client := Client.mk

/-- Model of a parsed URL as accepted by the repository client: the portion
before the path is opaque and the path is a character list, matching the
operations the source performs on it (path, set_path, join). -/
structure Url where
  base : String
  path : List Char
  deriving DecidableEq, Repr

/-- Client for a Debian repository served via HTTP, bound to a base URL. -/
structure HttpRepositoryClient where
  client : Client
  root_url : Url
  deriving DecidableEq, Repr

/-- Construct an instance using the given client and URL: when the URL path
lacks a trailing separator, one is appended, because trailing separators are
significant to relative joins. -/
def HttpRepositoryClient.new_client (client : Client) (url : Url) :
    HttpRepositoryClient :=
  let root_url :=
    if url.path.getLast? = some '/' then url
    else { url with path := url.path ++ ['/'] }
  { client := client, root_url := root_url }

/-- Construct an instance bound to the specified URL with a default client. -/
def HttpRepositoryClient.new (url : Url) : HttpRepositoryClient :=
  HttpRepositoryClient.new_client Client.default url

/-- Rust `str::trim_start_matches` for a single pattern character. -/
def trim_start_matches (c : Char) (l : List Char) : List Char :=
  l.dropWhile (fun x => x == c)

/-- Removal of trailing occurrences of a character. -/
def trim_end_matches (c : Char) (l : List Char) : List Char :=
  (l.reverse.dropWhile (fun x => x == c)).reverse

/-- Rust `str::trim_matches` for a single pattern character: remove leading
and trailing occurrences. -/
def trim_matches (c : Char) (l : List Char) : List Char :=
  trim_end_matches c (trim_start_matches c l)

/-- join_path from repository/http.rs: surrounding separators of the first
component and leading separators of the second are trimmed, then the two are
joined with a single separator. -/
def join_path (a b : List Char) : List Char :=
  trim_matches '/' a ++ '/' :: trim_start_matches '/' b

/-- An HTTP client bound to a specific distribution path under a root. -/
structure HttpDistributionClient where
  root_client : HttpRepositoryClient
  distribution_path : List Char
  deriving DecidableEq, Repr

/-- Obtain a distribution client for a given distribution name: its path is
`dists/` followed by the name with surrounding separators trimmed. -/
def HttpRepositoryClient.distribution_client (c : HttpRepositoryClient)
    (distribution : List Char) : HttpDistributionClient :=
  { root_client := c,
    distribution_path := "dists/".toList ++ trim_matches '/' distribution }

/-- Obtain a distribution client for a given raw sub-path, without `dists/`
prepended. -/
def HttpRepositoryClient.distribution_client_raw_path
    (c : HttpRepositoryClient) (path : List Char) : HttpDistributionClient :=
  { root_client := c, distribution_path := trim_matches '/' path }

/-- Outcome of attempting to send an HTTP GET request: either the request
cannot be sent (transport failure), or a response with a status code and a
body arrives. -/
inductive SendOutcome where
  | sendFailure (errMsg : List Char)
  | response (status : Nat) (body : List Char)
  deriving DecidableEq, Repr

/-- Modelled from the spec: the error enum of the repository-reader
capability (repository/mod.rs is not among the sources). The source
constructs `IoPath`; the path-not-found, URL and integrity classes are the
remaining conditions of the error taxonomy. -/
inductive RepositoryReadError where
  | IoPath (path : List Char) (ioMsg : List Char)
  | UrlError (msg : List Char)
  | PathNotFound (path : List Char)
  | DigestMismatch (path : List Char)
  deriving DecidableEq, Repr

/-- Debug rendering of a failing status code inside the formatted error
message; only its position within the message matters for the claims. -/
def statusDebugText (status : Nat) : List Char :=
  (Nat.repr status).toList

/-- fetch_url from repository/http.rs, with the transport behaviour supplied
as the outcome of sending the request: a send failure maps to an `IoPath`
error whose message begins `error sending HTTP request`, a client- or
server-error status maps to an `IoPath` error whose message begins
`bad HTTP status code`, and otherwise the body is returned. -/
def fetch_url (outcome : SendOutcome) (path : List Char) :
    Except RepositoryReadError (List Char) :=
  match outcome with
  | .sendFailure e =>
    .error (.IoPath path ("error sending HTTP request: ".toList ++ e))
  | .response status body =>
    if 400 ≤ status ∧ status ≤ 599 then
      .error (.IoPath path ("bad HTTP status code: ".toList ++
        statusDebugText status))
    else .ok body

/-- get_path of the root client: send the request for the given path under
the root URL and map the outcome through fetch_url. The transport is
supplied as a function from the requested path to a send outcome. -/
def HttpRepositoryClient.get_path (c : HttpRepositoryClient)
    (net : List Char → SendOutcome) (path : List Char) :
    Except RepositoryReadError (List Char) :=
  fetch_url (net path) path

/-- get_path of a distribution client: delegate to the root client on the
join of the distribution path with the requested path. -/
def HttpDistributionClient.get_path (c : HttpDistributionClient)
    (net : List Char → SendOutcome) (path : List Char) :
    Except RepositoryReadError (List Char) :=
  c.root_client.get_path net (join_path c.distribution_path path)

/-- Modelled from the spec: compression formats of a package index. -/
inductive IndexFileCompression where
  | Uncompressed
  | Gzip
  | Xz
  | Zstd
  deriving DecidableEq, Repr

/-- Modelled from the spec: one checksum-index entry of a release manifest. -/
structure ChecksumEntry where
  algorithm : String
  digest : String
  size : Nat
  deriving DecidableEq, Repr

/-- Modelled from the spec: the parsed release manifest
(repository/release.rs is not among the sources). -/
structure ReleaseFile where
  date : String
  valid_until : Option String
  architectures : List String
  components : List String
  checksum_index : List (String × ChecksumEntry)
  deriving DecidableEq, Repr

/-- Repository HTTP client bound to a parsed release manifest. -/
structure HttpReleaseClient where
  root_client : HttpRepositoryClient
  distribution_path : List Char
  release : ReleaseFile
  fetch_compression : IndexFileCompression
  deriving DecidableEq, Repr

/-- Obtain the parsed release file the client is bound to. -/
def HttpReleaseClient.release_file (c : HttpReleaseClient) : ReleaseFile :=
  c.release

/-- Obtain the preferred compression used to fetch indices. -/
def HttpReleaseClient.preferred_compression (c : HttpReleaseClient) :
    IndexFileCompression :=
  c.fetch_compression

/-- Set the preferred compression used to fetch indices. -/
def HttpReleaseClient.set_preferred_compression (c : HttpReleaseClient)
    (compression : IndexFileCompression) : HttpReleaseClient :=
  { c with fetch_compression := compression }

/-- get_path of a release client: delegate to the root client on the join of
the distribution path with the requested path. -/
def HttpReleaseClient.get_path (c : HttpReleaseClient)
    (net : List Char → SendOutcome) (path : List Char) :
    Except RepositoryReadError (List Char) :=
  c.root_client.get_path net (join_path c.distribution_path path)

lemma head?_dropWhile_not (p : Char → Bool) :
    ∀ (l : List Char) (a : Char), (l.dropWhile p).head? = some a →
      p a = false := by
  intro l
  induction l with
  | nil => intro a h; exact Option.noConfusion h
  | cons x xs ih =>
    intro a h
    rw [List.dropWhile_cons] at h
    by_cases hx : p x = true
    · rw [if_pos hx] at h
      exact ih a h
    · rw [if_neg hx] at h
      simp only [List.head?_cons, Option.some.injEq] at h
      simp only [Bool.not_eq_true] at hx
      rw [← h]
      exact hx

lemma dropWhile_eq_self_of_head (p : Char → Bool) (l : List Char) (a : Char)
    (h1 : l.head? = some a) (h2 : p a = false) : l.dropWhile p = l := by
  cases l with
  | nil => rfl
  | cons x xs =>
    simp only [List.head?_cons, Option.some.injEq] at h1
    have hx : p x = false := by rw [h1]; exact h2
    rw [List.dropWhile_cons, hx]
    simp

lemma dropWhile_append_split (p : Char → Bool) :
    ∀ (l l' : List Char), (l ++ l').dropWhile p =
      if (l.dropWhile p).isEmpty then l'.dropWhile p
      else l.dropWhile p ++ l' := by
  intro l
  induction l with
  | nil => intro l'; simp
  | cons x xs ih =>
    intro l'
    rw [List.cons_append, List.dropWhile_cons, List.dropWhile_cons]
    by_cases hx : p x = true
    · rw [if_pos hx, if_pos hx]
      exact ih l'
    · rw [if_neg hx, if_neg hx]
      simp

lemma dropWhile_eq_self_of_append (p : Char → Bool) :
    ∀ (t s : List Char), (t ++ s).dropWhile p = t ++ s →
      t.dropWhile p = t := by
  intro t s h
  cases t with
  | nil => rfl
  | cons x t' =>
    rw [List.cons_append, List.dropWhile_cons] at h
    by_cases hx : p x = true
    · rw [if_pos hx] at h
      have hsuf : (t' ++ s).dropWhile p <:+ (t' ++ s) :=
        List.dropWhile_suffix p
      have hlen := hsuf.sublist.length_le
      rw [h] at hlen
      simp at hlen
    · rw [List.dropWhile_cons, if_neg hx]

lemma trim_end_append_exists (c : Char) (l : List Char) :
    ∃ s, trim_end_matches c l ++ s = l := by
  refine ⟨(l.reverse.takeWhile (fun x => x == c)).reverse, ?_⟩
  unfold trim_end_matches
  rw [← List.reverse_append, List.takeWhile_append_dropWhile,
    List.reverse_reverse]

lemma trim_end_getLast_not (c : Char) (l : List Char) (a : Char)
    (h : (trim_end_matches c l).getLast? = some a) : (a == c) = false := by
  unfold trim_end_matches at h
  rw [List.getLast?_reverse] at h
  exact head?_dropWhile_not (fun x => x == c) l.reverse a h

lemma trim_end_eq_self (c : Char) (l : List Char)
    (h : ∀ a, l.getLast? = some a → (a == c) = false) :
    trim_end_matches c l = l := by
  unfold trim_end_matches
  cases hl : l.reverse with
  | nil =>
    have hnil : l = [] := by
      have h2 := congrArg List.reverse hl
      rwa [List.reverse_reverse] at h2
    rw [hnil]
    rfl
  | cons x xs =>
    have hx : (x == c) = false := by
      apply h
      rw [← List.head?_reverse, hl]
      rfl
    rw [dropWhile_eq_self_of_head (fun y => y == c) (x :: xs) x rfl hx,
      ← hl, List.reverse_reverse]

lemma trim_start_of_trim_matches (c : Char) (l : List Char) :
    trim_start_matches c (trim_matches c l) = trim_matches c l := by
  obtain ⟨s, hs⟩ := trim_end_append_exists c (trim_start_matches c l)
  unfold trim_matches
  apply dropWhile_eq_self_of_append (fun x => x == c) _ s
  rw [hs]
  exact List.dropWhile_idempotent _ _

lemma trim_end_idem (c : Char) (l : List Char) :
    trim_end_matches c (trim_end_matches c l) = trim_end_matches c l := by
  unfold trim_end_matches
  rw [List.reverse_reverse, List.dropWhile_idempotent]

lemma trim_matches_idem (c : Char) (l : List Char) :
    trim_matches c (trim_matches c l) = trim_matches c l := by
  have h1 : trim_matches c (trim_matches c l)
      = trim_end_matches c (trim_start_matches c (trim_matches c l)) := rfl
  rw [h1, trim_start_of_trim_matches]
  have h2 : trim_matches c l
      = trim_end_matches c (trim_start_matches c l) := rfl
  rw [h2, trim_end_idem]

lemma trim_start_cons_sep (c : Char) (l : List Char) :
    trim_start_matches c (c :: l) = trim_start_matches c l := by
  unfold trim_start_matches
  rw [List.dropWhile_cons, if_pos (by simp)]

lemma trim_matches_cons_sep (c : Char) (l : List Char) :
    trim_matches c (c :: l) = trim_matches c l := by
  unfold trim_matches
  rw [trim_start_cons_sep]

lemma trim_end_concat_sep (c : Char) (l : List Char) :
    trim_end_matches c (l ++ [c]) = trim_end_matches c l := by
  unfold trim_end_matches
  rw [show (l ++ [c]).reverse = c :: l.reverse by simp,
    List.dropWhile_cons, if_pos (by simp)]

lemma trim_matches_concat_sep (c : Char) (l : List Char) :
    trim_matches c (l ++ [c]) = trim_matches c l := by
  unfold trim_matches trim_start_matches
  rw [dropWhile_append_split]
  by_cases he : (l.dropWhile (fun x => x == c)).isEmpty = true
  · rw [if_pos he]
    have hnil : l.dropWhile (fun x => x == c) = [] := by
      rwa [List.isEmpty_iff] at he
    rw [hnil, show ([c].dropWhile (fun x => x == c)) = [] by simp]
  · rw [if_neg he]
    exact trim_end_concat_sep c _

lemma getLast?_trim_matches_not (c : Char) (l : List Char) (a : Char)
    (h : (trim_matches c l).getLast? = some a) : (a == c) = false := by
  unfold trim_matches at h
  exact trim_end_getLast_not c _ a h

lemma trim_start_dists (x : List Char) :
    trim_start_matches '/' ("dists/".toList ++ x) = "dists/".toList ++ x :=
  dropWhile_eq_self_of_head _ _ 'd' rfl (by decide)

lemma trim_end_dists (x : List Char) (hne : x ≠ [])
    (hlast : ∀ a, x.getLast? = some a → (a == '/') = false) :
    trim_end_matches '/' ("dists/".toList ++ x) = "dists/".toList ++ x := by
  apply trim_end_eq_self
  intro a ha
  rw [List.getLast?_append_of_ne_nil _ hne] at ha
  exact hlast a ha

lemma join_path_dists (d p : List Char) :
    join_path ("dists/".toList ++ trim_matches '/' d) p =
      if trim_matches '/' d = [] then
        "dists/".toList ++ trim_start_matches '/' p
      else
        "dists/".toList ++ trim_matches '/' d ++
          '/' :: trim_start_matches '/' p := by
  unfold join_path
  by_cases hd : trim_matches '/' d = []
  · rw [if_pos hd, hd, List.append_nil,
      show trim_matches '/' "dists/".toList = "dists".toList by decide]
    rfl
  · rw [if_neg hd]
    have hmain : trim_matches '/' ("dists/".toList ++ trim_matches '/' d)
        = "dists/".toList ++ trim_matches '/' d := by
      have h1 : trim_matches '/' ("dists/".toList ++ trim_matches '/' d)
          = trim_end_matches '/'
            (trim_start_matches '/'
              ("dists/".toList ++ trim_matches '/' d)) := rfl
      rw [h1, trim_start_dists]
      exact trim_end_dists _ hd
        (fun a ha => getLast?_trim_matches_not '/' d a ha)
    rw [hmain, List.append_assoc]

/-- C5: every URL accepted by `new` or `new_client` yields a client whose
root URL path ends in a separator — one is appended when missing — and the
derived distribution clients keep the constructed root client unchanged; in
this pure embedding no operation mutates a constructed client. -/
theorem claim_C5_root_url_normalized (cl : Client) (u : Url)
    (d q : List Char) :
    (((HttpRepositoryClient.new_client cl u).root_url.path).getLast?
      = some '/') ∧
    (((HttpRepositoryClient.new u).root_url.path).getLast? = some '/') ∧
    ((HttpRepositoryClient.new_client cl u).distribution_client d).root_client
      = HttpRepositoryClient.new_client cl u ∧
    ((HttpRepositoryClient.new_client cl
      u).distribution_client_raw_path q).root_client
      = HttpRepositoryClient.new_client cl u := by
  refine ⟨?_, ?_, rfl, rfl⟩
  all_goals
    show ((if _ = some '/' then u
      else { u with path := u.path ++ ['/'] }).path).getLast? = some '/'
  all_goals by_cases h : u.path.getLast? = some '/'
  · rw [if_pos h]; exact h
  · rw [if_neg h]; exact List.getLast?_concat _
  · rw [if_pos h]; exact h
  · rw [if_neg h]; exact List.getLast?_concat _

/-- C6 counterexample: for the distribution name `/` (which trims to the
empty name) and path `a`, the claimed delegation path
`dists/` + trimmed name + `/` + trimmed path is `dists//a`, but the path the
distribution client actually passes to the root client is `dists/a`. -/
theorem claim_C6_counterexample :
    (join_path
      ((HttpRepositoryClient.new ⟨"http://h", ['/']⟩).distribution_client
        "/".toList).distribution_path "a".toList = "dists/a".toList) ∧
    ("dists/".toList ++ trim_matches '/' "/".toList ++
      '/' :: trim_start_matches '/' "a".toList = "dists//a".toList) ∧
    "dists/a".toList ≠ "dists//a".toList := by
  refine ⟨by rfl, by rfl, by decide⟩

/-- C6 (amended): a distribution client for name d answers get_path p by
delegating to the root client's get_path on the join of its distribution
path with p; that joined path is `dists/` + d' + `/` + p' when d' (d with
surrounding separators trimmed) is nonempty, and `dists/` + p' when d' is
empty — p' being p with leading separators trimmed. The raw-path variant
delegates on d' + `/` + p' with no `dists/` prefix in all cases. -/
theorem claim_C6_distribution_client_delegation (c : HttpRepositoryClient)
    (net : List Char → SendOutcome) (d p : List Char) :
    ((c.distribution_client d).get_path net p =
      c.get_path net
        (join_path (c.distribution_client d).distribution_path p)) ∧
    (join_path (c.distribution_client d).distribution_path p =
      if trim_matches '/' d = [] then
        "dists/".toList ++ trim_start_matches '/' p
      else
        "dists/".toList ++ trim_matches '/' d ++
          '/' :: trim_start_matches '/' p) ∧
    ((c.distribution_client_raw_path d).get_path net p =
      c.get_path net
        (join_path (c.distribution_client_raw_path d).distribution_path p)) ∧
    (join_path (c.distribution_client_raw_path d).distribution_path p =
      trim_matches '/' d ++ '/' :: trim_start_matches '/' p) := by
  refine ⟨rfl, join_path_dists d p, rfl, ?_⟩
  show join_path (trim_matches '/' d) p = _
  unfold join_path
  rw [trim_matches_idem]

/-- C10 counterexample: join_path is not insensitive to a trailing separator
of its second argument: join_path of `a` and `b/` keeps the trailing
separator, while join_path of the two surrounding-trimmed strings drops
it. -/
theorem claim_C10_counterexample :
    join_path "a".toList "b/".toList ≠
      join_path (trim_matches '/' "a".toList)
        (trim_matches '/' "b/".toList) := by
  decide

/-- C10 (amended): join_path is insensitive to surrounding separators of its
first argument and to leading separators of its second (trailing separators
of the second are kept); distribution clients for d and for d wrapped in an
added leading and trailing separator have the same distribution path, hence
resolve every path identically; and the joined path never contains a doubled
separator at the join point. -/
theorem claim_C10_join_path_separators (a b d p : List Char)
    (c : HttpRepositoryClient) (net : List Char → SendOutcome) :
    (join_path a b =
      join_path (trim_matches '/' a) (trim_start_matches '/' b)) ∧
    ((c.distribution_client ('/' :: d ++ ['/'])).distribution_path =
      (c.distribution_client d).distribution_path) ∧
    ((c.distribution_client ('/' :: d ++ ['/'])).get_path net p =
      (c.distribution_client d).get_path net p) ∧
    ((trim_matches '/' a).getLast? ≠ some '/') ∧
    ((trim_start_matches '/' b).head? ≠ some '/') := by
  have h2 : (c.distribution_client ('/' :: d ++ ['/'])).distribution_path =
      (c.distribution_client d).distribution_path := by
    show "dists/".toList ++ trim_matches '/' (('/' :: d) ++ ['/'])
      = "dists/".toList ++ trim_matches '/' d
    rw [List.cons_append, trim_matches_cons_sep, trim_matches_concat_sep]
  refine ⟨?_, h2, ?_, ?_, ?_⟩
  · unfold join_path
    rw [trim_matches_idem]
    unfold trim_start_matches
    rw [List.dropWhile_idempotent]
  · exact congrArg
      (fun dp => c.get_path net (join_path dp p)) h2
  · intro h
    exact absurd (getLast?_trim_matches_not '/' a '/' h) (by decide)
  · intro h
    unfold trim_start_matches at h
    exact absurd (head?_dropWhile_not _ b '/' h) (by decide)

/-- C7: setting the preferred compression makes a subsequent read return the
new value and leaves every other component of the release client unchanged:
the release file, the root client, the distribution path and hence every
get_path answer are the same before and after. -/
theorem claim_C7_set_preferred_compression (c : HttpReleaseClient)
    (x : IndexFileCompression) :
    (c.set_preferred_compression x).preferred_compression = x ∧
    (c.set_preferred_compression x).release_file = c.release_file ∧
    (c.set_preferred_compression x).root_client = c.root_client ∧
    (c.set_preferred_compression x).distribution_path =
      c.distribution_path ∧
    (∀ net p, (c.set_preferred_compression x).get_path net p =
      c.get_path net p) :=
  ⟨rfl, rfl, rfl, rfl, fun _ _ => rfl⟩

/-- C4: at the repository-reader boundary, a transport failure (the request
cannot be sent) and a client- or server-error status code surface through
get_path as two distinct reportable conditions — both IoPath errors naming
the requested path, with messages beginning with distinct markers — and
each is distinct from the path-not-found and integrity conditions of the
error taxonomy. -/
theorem claim_C4_transport_vs_status (c : HttpRepositoryClient)
    (net : List Char → SendOutcome) (path e body q : List Char)
    (status : Nat) (h1 : 400 ≤ status) (h2 : status ≤ 599) :
    (∀ p, c.get_path net p = fetch_url (net p) p) ∧
    fetch_url (.sendFailure e) path ≠
      fetch_url (.response status body) path ∧
    (∃ m, fetch_url (.sendFailure e) path = .error (.IoPath path m)) ∧
    (∃ m, fetch_url (.response status body) path
      = .error (.IoPath path m)) ∧
    fetch_url (.sendFailure e) path ≠ .error (.PathNotFound q) ∧
    fetch_url (.sendFailure e) path ≠ .error (.DigestMismatch q) ∧
    fetch_url (.response status body) path ≠ .error (.PathNotFound q) ∧
    fetch_url (.response status body) path ≠ .error (.DigestMismatch q) := by
  have hresp : fetch_url (.response status body) path =
      .error (.IoPath path ("bad HTTP status code: ".toList ++
        statusDebugText status)) := by
    simp only [fetch_url]
    rw [if_pos ⟨h1, h2⟩]
  have hsend : fetch_url (.sendFailure e) path =
      .error (.IoPath path ("error sending HTTP request: ".toList ++ e)) :=
    rfl
  refine ⟨fun _ => rfl, ?_, ⟨_, hsend⟩, ⟨_, hresp⟩, ?_, ?_, ?_, ?_⟩
  · rw [hresp, hsend]
    intro hcontra
    simp only [Except.error.injEq, RepositoryReadError.IoPath.injEq,
      true_and] at hcontra
    have hh1 : ("error sending HTTP request: ".toList ++ e).head?
        = some 'e' := rfl
    have hh2 : ("bad HTTP status code: ".toList ++
        statusDebugText status).head? = some 'b' := rfl
    have h3 := congrArg List.head? hcontra
    rw [hh1, hh2] at h3
    exact absurd h3 (by decide)
  · rw [hsend]; simp
  · rw [hsend]; simp
  · rw [hresp]; simp
  · rw [hresp]; simp

/-- C4 witness: the error-class separation at the concrete status 404 with a
concrete transport failure. -/
theorem claim_C4_transport_vs_status_witness :
    400 ≤ 404 ∧ 404 ≤ 599 ∧
    ((∀ p, (HttpRepositoryClient.new
        ⟨"http://example.org", "/debian".toList⟩).get_path
        (fun _ => SendOutcome.response 200 []) p =
      fetch_url ((fun _ => SendOutcome.response 200 []) p) p) ∧
    fetch_url (.sendFailure "refused".toList) "p".toList ≠
      fetch_url (.response 404 []) "p".toList ∧
    (∃ m, fetch_url (.sendFailure "refused".toList) "p".toList
      = .error (.IoPath "p".toList m)) ∧
    (∃ m, fetch_url (.response 404 []) "p".toList
      = .error (.IoPath "p".toList m)) ∧
    fetch_url (.sendFailure "refused".toList) "p".toList ≠
      .error (.PathNotFound "q".toList) ∧
    fetch_url (.sendFailure "refused".toList) "p".toList ≠
      .error (.DigestMismatch "q".toList) ∧
    fetch_url (.response 404 []) "p".toList ≠
      .error (.PathNotFound "q".toList) ∧
    fetch_url (.response 404 []) "p".toList ≠
      .error (.DigestMismatch "q".toList)) :=
  ⟨by decide, by decide,
    claim_C4_transport_vs_status
      (HttpRepositoryClient.new ⟨"http://example.org", "/debian".toList⟩)
      (fun _ => SendOutcome.response 200 []) "p".toList "refused".toList
      [] "q".toList 404 (by decide) (by decide)⟩
